import Mathlib

namespace HSpec

/-!
Verification development for the hyperspy model/curve-fitting core.

The development shallowly embeds, over `ℚ` and `List`, the parts of the
repository that the stated properties concern:

* `hyperspy/_components/polynomial.py` (present in the source tree):
  coefficient-name generation of `Polynomial.__init__`, the
  `estimate_parameters` control flow, and `convert_to_polynomial`.
* the Model / Parameter / Component container core (`model.py`,
  `component.py`, `parameter.py`, `axes.py` are not present in the source
  tree; only their test suite is).  Those operations are modelled from the
  specification, with the behaviour pinned down by the repository's own
  tests (`hyperspy/tests/model/test_model.py`).

Machine reals of the source (numpy float64) are modelled as `ℚ`; numpy
arrays as `List`.
-/

/-! ## Decimal strings (model of Python `str` / `str.zfill`)

`polynomial.py` builds coefficient suffixes with
`"{}".format(o).zfill(len(list(str(order))))`.  We model decimal strings
of naturals most-significant-digit first. -/

/-- Big-endian base-10 digit list of `n`, padded on the left with zeros to
exactly `w` digits (faithful for `n < 10 ^ w`). -/
def padDec : ℕ → ℕ → List ℕ
  | 0, _ => []
  | w + 1, n => n / 10 ^ w :: padDec w (n % 10 ^ w)

/-- Decimal string of a natural number, modelling Python `str(n)`:
big-endian digits of `n`, no leading zeros (`"0"` for `0`). -/
def natStr (n : ℕ) : List Char := (padDec (Nat.log 10 n + 1) n).map Nat.digitChar

/-- Model of Python `str.zfill(w)`: pad on the left with `'0'` up to
width `w` (never truncates). -/
def zfill (w : ℕ) (s : List Char) : List Char :=
  List.replicate (w - s.length) '0' ++ s

/-! ## `Polynomial.__init__` (polynomial.py, lines 54-66)

```python
if order == 0:
    raise ValueError("Polynomial of order 0 is not supported.")
coeff_list = [
    "{}".format(o).zfill(len(list(str(order)))) for o in range(order, -1, -1)
]
expr = "+".join(
    ["a{}*x**{}".format(c, o) for c, o in zip(coeff_list, range(order, -1, -1))]
)
```
The `Expression` base class (not in the source tree) creates one Parameter
per `a`-name appearing in `expr`; as its tests show (`p.a0`, `p.a1`, ...,
`self.parameters[::-1]` matching `np.polyfit`'s high-degree-first output),
it keeps them sorted by name, i.e. lowest degree first. -/

/-- Zero-padded coefficient suffix list of `polynomial.py`:
`["{}".format(o).zfill(len(list(str(order)))) for o in range(order, -1, -1)]`. -/
def coeffList (order : ℕ) : List (List Char) :=
  ((List.range (order + 1)).reverse).map
    (fun o => zfill (natStr order).length (natStr o))

/-- Name of the coefficient parameter of degree `o`: `"a" + suffix`. -/
def coeffName (order o : ℕ) : String :=
  String.mk ('a' :: zfill (natStr order).length (natStr o))

/-- Parameter of a component.  Modelled from the spec: `parameter.py` is
not in the source tree.  `value` is the scalar-or-vector current value
(`_number_of_elements = value.length`); `twin` is an arena reference
`(component index, parameter index)` to the parameter this one is twinned
to, and `twins` is the `_twins` back-reference set; `grad` is the
component-specific analytic gradient (a leaf of the spec); the three
`map*` fields are the per-navigation-pixel results store, flattened to a
row-major list over navigation space. -/
structure Param where
  name : String
  value : List ℚ
  std : Option ℚ
  free : Bool
  bmin : Option ℚ
  bmax : Option ℚ
  twin : Option (ℕ × ℕ)
  twins : List (ℕ × ℕ)
  grad : ℚ → ℚ
  mapValues : List (List ℚ)
  mapStd : List (Option ℚ)
  mapIsSet : List Bool

/-- Fresh parameter with a single zero-valued element, as `Expression`
creates them for each symbol of the expression. -/
def Param.fresh (name : String) : Param :=
  { name := name, value := [0], std := none, free := true,
    bmin := none, bmax := none, twin := none, twins := [],
    grad := fun _ => 0, mapValues := [], mapStd := [], mapIsSet := [] }

/-- Result of `Polynomial.__init__`: the component's parameters, sorted by
name (lowest degree first), one per coefficient of the expression. -/
def polyParameters (order : ℕ) : List Param :=
  ((List.range (order + 1)).map (fun o => Param.fresh (coeffName order o)))

/-- Model of `Polynomial.__init__(order)`: rejects order 0 with
`ValueError`, otherwise builds the component's parameter list from the
coefficient names of `coeff_list`. -/
def mkPolynomial (order : ℕ) : Except String (List Param) :=
  if order = 0 then .error "Polynomial of order 0 is not supported."
  else .ok (polyParameters order)

/-- Model of `Polynomial.get_polynomial_order`:
`len(self.parameters) - 1`. -/
def getPolynomialOrder (parameters : List Param) : ℕ := parameters.length - 1

/-! ## `convert_to_polynomial` (polynomial.py, lines 149-168)

Converts the dictionary of the legacy Polynomial definition (one
coefficient-list parameter) to the current layout (one parameter per
degree).  Dictionaries are modelled as records holding the keys the
function touches (`_id_name`, `value`, `_bounds`, `order`, `parameters`)
plus an opaque association list for every remaining key, which
`dict(...)`-copying carries over verbatim. -/

/-- Legacy parameter dictionary: coefficient-list `value`, per-coefficient
`_bounds`, and all remaining keys carried opaquely in `rest`. -/
structure LegacyParamDict where
  idName : String
  value : List ℚ
  bounds : List (Option ℚ × Option ℚ)
  rest : List (String × String)
  deriving Repr, DecidableEq

/-- Current-layout parameter dictionary: one scalar `value` and one
`_bounds` pair per parameter. -/
structure NewParamDict where
  idName : String
  value : ℚ
  bounds : Option ℚ × Option ℚ
  rest : List (String × String)
  deriving Repr, DecidableEq

/-- Legacy Polynomial component dictionary. -/
structure LegacyPolyDict where
  order : ℕ
  parameters : List LegacyParamDict
  rest : List (String × String)
  deriving Repr, DecidableEq

/-- Current-layout Polynomial component dictionary. -/
structure NewPolyDict where
  order : ℕ
  parameters : List NewParamDict
  rest : List (String × String)
  deriving Repr, DecidableEq

/-- Loop body of `convert_to_polynomial`:
`for i, coeff in enumerate(coeff_list)` builds one new parameter
dictionary per suffix, copying the coefficient dictionary and overwriting
`_id_name`, `value` and `_bounds` (the latter two with element `i` of the
legacy lists; a missing element is an `IndexError`, i.e. `none`). -/
def convertParamsFrom (cd : LegacyParamDict) :
    ℕ → List (List Char) → Option (List NewParamDict)
  | _, [] => some []
  | i, c :: cs => do
      let v ← cd.value.get? i
      let b ← cd.bounds.get? i
      let tail ← convertParamsFrom cd (i + 1) cs
      pure ({ idName := String.mk ('a' :: c), value := v, bounds := b,
              rest := cd.rest } :: tail)

/-- Model of `convert_to_polynomial(poly_dict)`: regenerates `coeff_list`
from the stored order (the same formula as `Polynomial.__init__`), takes
`poly_dict["parameters"][0]` as the coefficient dictionary and replaces
the parameter list with one entry per coefficient. -/
def convertToPolynomial (d : LegacyPolyDict) : Option NewPolyDict := do
  let cd ← d.parameters.head?
  let params ← convertParamsFrom cd 0 (coeffList d.order)
  pure { order := d.order, parameters := params, rest := d.rest }

/-! ## The Model container core

Modelled from the spec: `model.py`, `component.py` and `parameter.py` are
not in the source tree; only their test suite
(`hyperspy/tests/model/test_model.py`) is.  The definitions below follow
the specification's description of the container operations, with the
behaviour at the tests' concrete inputs pinned by those tests. -/

/-- Component: ordered parameters, a name, an active flag, and a stable
`id` modelling Python object identity (two distinct instances never share
an `id`, however equal their contents). -/
structure Component where
  id : ℕ
  name : String
  parameters : List Param
  active : Bool

/-- Model: ordered components bound to one signal, the signal-axis values,
the active-channel mask (`_channel_switches`), the flattened
navigation-space size and the current navigation position. -/
structure Model where
  components : List Component
  axis : List ℚ
  channelSwitches : List Bool
  navSize : ℕ
  currentIndex : ℕ

/-- A parameter contributes to the free vector iff it is free, not
twinned, and its component is active. -/
def eligible (act : Bool) (p : Param) : Bool :=
  act && p.free && p.twin.isNone

/-- Modelled from the spec: `Model._set_p0` of the missing `model.py`.
Iterates components in model order and parameters in component order,
appending the value(s) of every free, non-twinned parameter of every
active component to the flat vector (multi-element values expand in
place). -/
def Model.setP0 (m : Model) : List ℚ :=
  m.components.foldl
    (fun acc c =>
      c.parameters.foldl
        (fun acc2 p => if eligible c.active p then acc2 ++ p.value else acc2)
        acc)
    []

/-- Scatter of `_fetch_values_from_p0` over one component's parameter
list: each free, non-twinned parameter of an active component consumes
the next `value.length` entries of the vector; every other parameter is
left untouched. -/
def fetchParams (act : Bool) : List Param → List ℚ → List Param × List ℚ
  | [], v => ([], v)
  | p :: ps, v =>
      if eligible act p then
        let out := fetchParams act ps (v.drop p.value.length)
        ({ p with value := v.take p.value.length } :: out.1, out.2)
      else
        let out := fetchParams act ps v
        (p :: out.1, out.2)

/-- Scatter of `_fetch_values_from_p0` over the component list, in model
order. -/
def fetchComponents : List Component → List ℚ → List Component × List ℚ
  | [], v => ([], v)
  | c :: cs, v =>
      let pout := fetchParams c.active c.parameters v
      let cout := fetchComponents cs pout.2
      ({ c with parameters := pout.1 } :: cout.1, cout.2)

/-- Modelled from the spec: `Model._fetch_values_from_p0` of the missing
`model.py`.  Scatters a flat vector back onto the free, non-twinned
parameters of active components, in the same deterministic order
`_set_p0` uses. -/
def Model.fetchValuesFromP0 (m : Model) (p0 : List ℚ) : Model :=
  { m with components := (fetchComponents m.components p0).1 }

/-- One-sided clamp of `ensure_parameters_in_bounds`: snap above `bmax`
down, then below `bmin` up (an unset bound is unlimited on that side). -/
def clampValue (bmin bmax : Option ℚ) (x : ℚ) : ℚ :=
  let x1 := match bmax with
    | some b => if b < x then b else x
    | none => x
  match bmin with
  | some b => if x1 < b then b else x1
  | none => x1

/-- Snap every element of a parameter's value into its bounds. -/
def Param.snapToBounds (p : Param) : Param :=
  { p with value := p.value.map (clampValue p.bmin p.bmax) }

/-- Modelled from the spec: `Model.ensure_parameters_in_bounds` of the
missing `model.py`, with the behaviour pinned by the repository test
`TestModel1D.test_snap_parameter_bounds`: only the free parameters of
active components are snapped into their bounds; fixed parameters and
parameters of inactive components are left unchanged. -/
def Model.ensureParametersInBounds (m : Model) : Model :=
  { m with
    components := m.components.map (fun c =>
      if c.active then
        { c with parameters := c.parameters.map (fun p =>
            if p.free then p.snapToBounds else p) }
      else c) }

/-- Store of one parameter's current value/std into its map at pixel
`idx`, marking the pixel's `is_set` flag. -/
def Param.storeCurrentValue (p : Param) (idx : ℕ) : Param :=
  { p with
    mapValues := p.mapValues.set idx p.value,
    mapStd := p.mapStd.set idx p.std,
    mapIsSet := p.mapIsSet.set idx true }

/-- Modelled from the spec: `Model.store_current_values` of the missing
`model.py`.  Writes every active component's current parameter values and
stds into each parameter's map at the current pixel and marks `is_set`;
inactive components are skipped, their map entries left untouched. -/
def Model.storeCurrentValues (m : Model) : Model :=
  { m with
    components := m.components.map (fun c =>
      if c.active then
        { c with parameters :=
            c.parameters.map (fun p => p.storeCurrentValue m.currentIndex) }
      else c) }

/-- Masked signal axis: `self.axis.axis[self._channel_switches]`, the axis
positions of the channels participating in the fit. -/
def Model.maskedAxis (m : Model) : List ℚ :=
  (m.axis.zip m.channelSwitches).filterMap
    (fun xc => if xc.2 then some xc.1 else none)

/-- Arena lookup of a parameter reference
`(component index, parameter index)`. -/
def Model.paramAt (m : Model) (r : ℕ × ℕ) : Option Param :=
  (m.components.get? r.1).bind (fun c => c.parameters.get? r.2)

/-- Chain-rule gradient of one free-vector slot: the parameter's own
analytic gradient plus the gradients of every parameter twinned to it
(its `_twins` back-references). -/
def Model.slotGrad (m : Model) (p : Param) (x : ℚ) : ℚ :=
  p.grad x + ((p.twins.filterMap (fun r => m.paramAt r)).map
    (fun q => q.grad x)).sum

/-- Modelled from the spec: `Model._jacobian(param, y, weights)` of the
missing `model.py` (non-convolved path).  For every free-vector slot — a
free, non-twinned parameter of an active component, in `_set_p0` order —
the row is the slot's chain-rule gradient evaluated at the active channel
axis positions, scaled by the weights (`1.0` when `None`).  Jacobian
evaluation does not change any parameter value, so the parameter vector
and data arguments play no role in the returned matrix. -/
def Model.jacobian (m : Model) (_param : List ℚ) (_y : Option (List ℚ))
    (weights : Option ℚ) : List (List ℚ) :=
  let w := weights.getD 1
  m.components.bind (fun c =>
    if c.active then
      (c.parameters.filter (fun p => p.free && p.twin.isNone)).map
        (fun p => m.maskedAxis.map (fun x => w * m.slotGrad p x))
    else [])

/-- Effective value of a parameter: a twinned parameter's value is
computed from its twin (identity twin function, the default). -/
def Model.paramValue (m : Model) (r : ℕ × ℕ) : Option (List ℚ) :=
  (m.paramAt r).bind (fun p =>
    match p.twin with
    | some t => (m.paramAt t).map (fun q => q.value)
    | none => some p.value)

/-- Gaussian of the `TestModelJacobians` scenario, with the three analytic
gradient functions (component math is a leaf of the spec) abstracted:
`A.value = 1`, `centre.value = 2.0`, and `sigma` twinned to `centre`
(parameter indices: A = 0, centre = 1, sigma = 2). -/
def gaussComponent (gA gC gS : ℚ → ℚ) : Component :=
  { id := 0, name := "Gaussian",
    parameters := [
      { Param.fresh "A" with value := [1], grad := gA },
      { Param.fresh "centre" with value := [2], twins := [(0, 2)], grad := gC },
      { Param.fresh "sigma" with value := [0], twin := some (0, 1), grad := gS }],
    active := true }

/-- Model of the `TestModelJacobians` scenario: one-point signal, model
axis `[1, 0]`, channel mask `[False, True]`. -/
def gaussScenario (gA gC gS : ℚ → ℚ) : Model :=
  { components := [gaussComponent gA gC gS],
    axis := [1, 0], channelSwitches := [false, true],
    navSize := 1, currentIndex := 0 }

/-! ## `append` / `extend` (spec-modelled, behaviour pinned by
`TestModel1D.test_append_existing_component` and
`test_component_already_in_model`) -/

/-- Failure modes of the container operations.  The spec names the
duplicate-append failure `DuplicateComponentError`; the repository's tests
pin it as a `ValueError` whose message is "Component already in model". -/
inductive ModelError where
  | duplicateComponent
  deriving Repr, DecidableEq

/-- Fresh per-pixel maps for every parameter of a component, sized to the
model's navigation shape (flattened). -/
def createArrays (params : List Param) (navSize : ℕ) : List Param :=
  params.map (fun p =>
    { p with
      mapValues := List.replicate navSize (p.value.map (fun _ => 0)),
      mapStd := List.replicate navSize none,
      mapIsSet := List.replicate navSize false })

/-- Unique component name: the base name, then `base_0`, `base_1`, ... on
collision. -/
def uniqueName (existing : List String) (base : String) : String :=
  if existing.all (fun s => s != base) then base
  else
    (((List.range (existing.length + 1)).map
        (fun i => base ++ "_" ++ String.mk (natStr i))).filter
      (fun s => existing.all (fun t => t != s))).headD base

/-- Attach a component to a model: per-pixel parameter maps sized to the
navigation shape. -/
def Component.attach (c : Component) (navSize : ℕ) : Component :=
  { c with parameters := createArrays c.parameters navSize }

/-- Modelled from the spec: `Model.append(component)` of the missing
`model.py`.  Fails when the identical component instance — the same
object identity `id`, not field equality — is already present; the
failure is checked before any mutation.  On success the component is
assigned a unique name and attached with maps sized to the navigation
shape. -/
def Model.append (m : Model) (c : Component) : Except ModelError Model :=
  if m.components.any (fun c0 => c0.id == c.id) then
    .error .duplicateComponent
  else
    .ok { m with
      components := m.components ++
        [{ c.attach m.navSize with
           name := uniqueName (m.components.map Component.name) c.name }] }

/-- Modelled from the spec: `Model.extend(components)` appends each
component in turn, stopping at the first failure. -/
def Model.extend (m : Model) (cs : List Component) : Except ModelError Model :=
  cs.foldlM Model.append m

/-! ## Twin graph and component removal (spec-modelled, behaviour pinned
by `TestModel1D.test_delete_slice`)

Removal must break all twin links into and out of the removed components'
parameters, in both directions.  Parameters are kept in an arena of all
live component objects — removal from the model does not destroy the
Python objects — and twin links are stored as references
`(component id, parameter index)`, following the spec's design note. -/

/-- Twin-graph view of a parameter: forward `twin` reference and `_twins`
back-reference set, both as `(component id, parameter index)` pairs. -/
structure TwinParam where
  name : String
  twin : Option (ℕ × ℕ)
  twins : List (ℕ × ℕ)
  deriving Repr, DecidableEq

/-- Twin-graph view of a component object: its identity and parameters. -/
structure TwinComponent where
  id : ℕ
  params : List TwinParam
  deriving Repr, DecidableEq

/-- Break every twin link into and out of the parameters of component
`cid`: parameters of `cid` lose their forward link and their whole
back-reference set; every other parameter drops a forward link pointing
into `cid` and drops `cid`'s parameters from its back-references. -/
def clearTwinLinks (arena : List TwinComponent) (cid : ℕ) : List TwinComponent :=
  arena.map (fun c =>
    { c with params := c.params.map (fun p =>
        { p with
          twin :=
            if c.id = cid then none
            else match p.twin with
              | some t => if t.1 = cid then none else some t
              | none => none,
          twins :=
            if c.id = cid then []
            else p.twins.filter (fun r => r.1 ≠ cid) }) })

/-- Modelled from the spec: `Model.remove` / slice deletion of the missing
`model.py`.  Removes the given component ids from the model's member list
and breaks all twin links of their parameters in the arena of live
objects. -/
def removeComponents (arena : List TwinComponent) (members : List ℕ)
    (removed : List ℕ) : List TwinComponent × List ℕ :=
  (removed.foldl clearTwinLinks arena, members.filter (fun i => i ∉ removed))

/-- Gaussian parameter list of the twin-graph scenario (A = 0, centre = 1,
sigma = 2), with the given forward/backward links on A and sigma. -/
def twinGauss (twinA : Option (ℕ × ℕ)) (twinsA : List (ℕ × ℕ))
    (twinS : Option (ℕ × ℕ)) (twinsS : List (ℕ × ℕ)) : List TwinParam :=
  [{ name := "A", twin := twinA, twins := twinsA },
   { name := "centre", twin := none, twins := [] },
   { name := "sigma", twin := twinS, twins := twinsS }]

/-- Arena of the `test_delete_slice` scenario: `g3.A` twinned to `g1.A`,
`g1.sigma` twinned to `g2.sigma` (component ids 1, 2, 3). -/
def deleteSliceArena : List TwinComponent :=
  [{ id := 1, params := twinGauss none [(3, 0)] (some (2, 2)) [] },
   { id := 2, params := twinGauss none [] none [(1, 2)] },
   { id := 3, params := twinGauss (some (1, 0)) [] none [] }]

/-! ## Signal-range parsing (spec-modelled, behaviour pinned by
`TestModel1DSetSignalRange`)

The position-mapping layer: `axes.py` is not in the source tree.  A
uniform signal axis maps index `i` to the physical value
`offset + scale * i`; `value2index` rounds the inverse map to the nearest
index. -/

/-- Uniform signal axis: channel count, physical offset and scale (the
signed channel width). -/
structure SignalAxis where
  size : ℕ
  offset : ℚ
  scale : ℚ
  deriving Repr, DecidableEq

/-- Physical value of channel `i`. -/
def SignalAxis.valueAt (a : SignalAxis) (i : ℕ) : ℚ := a.offset + a.scale * i

/-- Smallest physical value on the axis. -/
def SignalAxis.lowValue (a : SignalAxis) : ℚ :=
  min (a.valueAt 0) (a.valueAt (a.size - 1))

/-- Largest physical value on the axis. -/
def SignalAxis.highValue (a : SignalAxis) : ℚ :=
  max (a.valueAt 0) (a.valueAt (a.size - 1))

/-- Physical value to nearest index (modelled rounding: half-up). -/
def SignalAxis.value2index (a : SignalAxis) (v : ℚ) : ℤ :=
  round ((v - a.offset) / a.scale)

/-- Modelled from the spec: `DataAxis.value_range_to_indices(v1, v2)` of
the missing `axes.py`.  Converts a physical range to index bounds,
honouring axis direction: on a decreasing axis (negative `scale`) `v1`
must not be below `v2`; a bound falling outside the axis keeps the default
full-range index (`0` resp. `size - 1`); a range inverted for the axis
direction is a `ValueError`. -/
def SignalAxis.valueRangeToIndices (a : SignalAxis) (v1 v2 : ℚ) :
    Except String (ℕ × ℕ) :=
  if (if 0 < a.scale then v2 < v1 else v1 < v2) then
    .error "Wrong order of the coordinate values."
  else
    .ok
      (if a.lowValue < v1 ∧ v1 ≤ a.highValue then (a.value2index v1).toNat
       else 0,
       if a.lowValue ≤ v2 ∧ v2 < a.highValue then (a.value2index v2).toNat
       else a.size - 1)

/-- Region-of-interest object exposing `left`/`right` physical bounds. -/
structure SpanROI where
  left : ℚ
  right : ℚ
  deriving Repr, DecidableEq

/-- Argument of `_parse_signal_range_values`: either two physical
coordinates or an ROI object. -/
inductive SignalRangeArg where
  | values (x1 x2 : ℚ)
  | roi (r : SpanROI)

/-- Modelled from the spec: `Model1D._parse_signal_range_values` of the
missing `model1d.py`.  Unpacks an ROI into its `left`/`right` physical
bounds and converts the physical range to index bounds on the signal
axis.  A pure computation: the model's channel mask is not touched, in
particular not on failure. -/
def parseSignalRangeValues (a : SignalAxis) :
    SignalRangeArg → Except String (ℕ × ℕ)
  | .values x1 x2 => a.valueRangeToIndices x1 x2
  | .roi r => a.valueRangeToIndices r.left r.right

/-! ## `Polynomial.estimate_parameters` (polynomial.py, lines 71-146) -/

/-- Mean of a list (`np.mean`). -/
def listMean (l : List ℚ) : ℚ := l.sum / l.length

/-- Model of `np.gradient` on a 1-d array: one-sided differences at the
ends, central differences inside. -/
def npGradient (l : List ℚ) : List ℚ :=
  if l.length < 2 then []
  else
    (List.range l.length).map (fun i =>
      if i = 0 then l.getD 1 0 - l.getD 0 0
      else if i = l.length - 1 then l.getD i 0 - l.getD (i - 1) 0
      else (l.getD (i + 1) 0 - l.getD (i - 1) 0) / 2)

/-- Signal view consumed by `estimate_parameters`: the signal axis with
its binned/uniform flags, the current-pixel data, the unfolded per-pixel
data, and the navigation geometry. -/
structure EstSignal where
  axis : SignalAxis
  isBinned : Bool
  isUniform : Bool
  currentData : List ℚ
  navData : List (List ℚ)
  navSize : ℕ
  currentIndex : ℕ

/-- Physical value array of the axis (`axis.axis`). -/
def SignalAxis.vals (a : SignalAxis) : List ℚ :=
  (List.range a.size).map a.valueAt

/-- Scaling factor of the binned branch: the axis `scale` for a uniform
axis, the mean gradient of the axis values otherwise. -/
def EstSignal.scalingFactor (s : EstSignal) : ℚ :=
  if s.isUniform then s.axis.scale else listMean (npGradient s.axis.vals)

/-- Slice `l[i1:i2]`. -/
def slice (l : List ℚ) (i1 i2 : ℕ) : List ℚ := (l.drop i1).take (i2 - i1)

/-- The `only_current=True` branch's write-back:
`zip(self.parameters[::-1], estimation)` walks the parameters from the
highest degree down, assigning each the matching estimated coefficient
(optionally divided by the scaling factor); parameters beyond the
estimation list are untouched. -/
def setValuesRev (params : List Param) (est : List ℚ) : List Param :=
  (((params.reverse.zip est).map
      (fun (pe : Param × ℚ) => { pe.1 with value := [pe.2] })) ++
    params.reverse.drop est.length).reverse

/-- The `only_current=False` branch's write-back: the `i`-th parameter
from the highest degree down gets, at every navigation pixel, coefficient
`i` of that pixel's fit written into its map, and `is_set` raised
everywhere. -/
def setMapsRev (params : List Param) (fits : List (List ℚ)) : List Param :=
  ((params.reverse.zip (List.range params.length)).map
      (fun pi =>
        { pi.1 with
          mapValues := fits.map (fun f => [f.getD pi.2 0]),
          mapStd := fits.map (fun _ => none),
          mapIsSet := fits.map (fun _ => true) })).reverse

/-- Fetch of `self.fetch_stored_values()` after a full-dataset estimate:
every parameter's current value is re-read from its map at the current
pixel. -/
def fetchStoredValues (params : List Param) (idx : ℕ) : List Param :=
  params.map (fun p => { p with value := p.mapValues.getD idx p.value })

/-- Model of `Polynomial.estimate_parameters(signal, x1, x2,
only_current)`.  `polyfit` (`np.polyfit`, least squares) is an
uninterpreted numeric leaf returning the coefficient list highest degree
first.  The range conversion may fail (`ValueError` from
`value_range_to_indices`); each of the two branches ends by returning
`True` together with the updated parameters. -/
def estimateParameters (polyfit : List ℚ → List ℚ → ℕ → List ℚ)
    (params : List Param) (s : EstSignal) (x1 x2 : ℚ)
    (onlyCurrent : Bool) : Except String (Bool × List Param) := do
  let idx ← s.axis.valueRangeToIndices x1 x2
  let scaled : ℚ → ℚ := fun e => if s.isBinned then e / s.scalingFactor else e
  if onlyCurrent then
    let estimation :=
      polyfit (slice s.axis.vals idx.1 idx.2) (slice s.currentData idx.1 idx.2)
        (getPolynomialOrder params)
    pure (true, setValuesRev params (estimation.map scaled))
  else
    let params :=
      if (params.headD (Param.fresh "")).mapValues.isEmpty then
        createArrays params s.navSize
      else params
    let fits := s.navData.map (fun d =>
      (polyfit (slice s.axis.vals idx.1 idx.2) (slice d idx.1 idx.2)
        (getPolynomialOrder params)).map scaled)
    pure (true, fetchStoredValues (setMapsRev params fits) s.currentIndex)

/-! ## Concrete scenarios used by witnesses and counterexamples -/

/-- Two-component model of the `_set_p0` scenario: an active component
with a free scalar `A`, a free two-element `centre` and a fixed `sigma`,
and an inactive second component. -/
def p0Scenario : Model :=
  { components := [
      { id := 0, name := "Gaussian", active := true,
        parameters := [
          { Param.fresh "A" with value := [1] },
          { Param.fresh "centre" with value := [2, 3] },
          { Param.fresh "sigma" with value := [4], free := false }] },
      { id := 1, name := "Gaussian_0", active := false,
        parameters := [{ Param.fresh "A" with value := [100] }] }],
    axis := [0], channelSwitches := [true], navSize := 1, currentIndex := 0 }

/-- Model of the bounds counterexample, mirroring `g3`/`g4` of
`test_snap_parameter_bounds`: an active component holding a fixed
parameter below its `bmin` and a free parameter above its `bmax`, and an
inactive component holding a free parameter below its `bmin`. -/
def boundsScenario : Model :=
  { components := [
      { id := 0, name := "g3", active := true,
        parameters := [
          { Param.fresh "A" with value := [-3], bmin := some 0, free := false },
          { Param.fresh "sigma" with value := [30], bmax := some 15 }] },
      { id := 1, name := "g4", active := false,
        parameters := [
          { Param.fresh "A" with value := [300], bmin := some 500 }] }],
    axis := [0], channelSwitches := [true], navSize := 1, currentIndex := 0 }

/-- Model of the `store_current_values` scenario: an active offset
component with current value 2 and std 3, and an inactive component whose
stored map entry (5) differs from its current value (2). -/
def storeScenario : Model :=
  { components := [
      { id := 0, name := "Offset", active := true,
        parameters := [
          { Param.fresh "offset" with
            value := [2], std := some 3,
            mapValues := [[0]], mapStd := [none], mapIsSet := [false] }] },
      { id := 1, name := "Offset_0", active := false,
        parameters := [
          { Param.fresh "offset" with
            value := [2], std := some 3,
            mapValues := [[5]], mapStd := [none], mapIsSet := [true] }] }],
    axis := [0], channelSwitches := [true], navSize := 1, currentIndex := 0 }

/-- Decreasing 20-channel axis of `test_parse_value_negative_scale`:
offset 100, scale −1. -/
def negScaleAxis : SignalAxis := { size := 20, offset := 100, scale := -1 }

/-- Increasing 20-channel axis of `test_parse_value` / `test_parse_roi`:
offset 100, scale 1. -/
def posScaleAxis : SignalAxis := { size := 20, offset := 100, scale := 1 }

/-- Component instance already attached to `p0Scenario` by identity: it
shares object id 0 with the scenario's first component. -/
def dupComponent : Component :=
  { id := 0, name := "Gaussian", parameters := [Param.fresh "A"],
    active := true }

/-- Fresh component instance (object id 7), field-for-field equal to
`dupComponent` apart from its identity. -/
def freshComponent : Component :=
  { id := 7, name := "Gaussian", parameters := [Param.fresh "A"],
    active := true }

theorem padDec_length (w n : ℕ) : (padDec w n).length = w := by
  induction w generalizing n with
  | zero => rfl
  | succ w ih => simp [padDec, ih]

theorem natStr_length (n : ℕ) : (natStr n).length = Nat.log 10 n + 1 := by
  simp [natStr, padDec_length]

theorem natStr_length_mono {n m : ℕ} (h : n ≤ m) :
    (natStr n).length ≤ (natStr m).length := by
  simpa [natStr_length] using Nat.log_mono_right h

theorem lt_pow_natStr_length (n : ℕ) : n < 10 ^ (natStr n).length := by
  rw [natStr_length]
  exact Nat.lt_pow_succ_log_self (by norm_num) n

/-- Left-extending a padded decimal representation by one digit prepends a
zero, provided the number already fits in the smaller width. -/
theorem padDec_succ_of_lt {w n : ℕ} (h : n < 10 ^ w) :
    padDec (w + 1) n = 0 :: padDec w n := by
  simp [padDec, Nat.div_eq_of_lt h, Nat.mod_eq_of_lt h]

theorem padDec_add_of_lt {w n : ℕ} (k : ℕ) (h : n < 10 ^ w) :
    padDec (w + k) n = List.replicate k 0 ++ padDec w n := by
  induction k with
  | zero => rfl
  | succ k ih =>
      have hk : n < 10 ^ (w + k) :=
        lt_of_lt_of_le h (Nat.pow_le_pow_right (by norm_num) (Nat.le_add_right _ _))
      calc padDec (w + (k + 1)) n = padDec ((w + k) + 1) n := by ring_nf
        _ = 0 :: padDec (w + k) n := padDec_succ_of_lt hk
        _ = 0 :: (List.replicate k 0 ++ padDec w n) := by rw [ih]
        _ = List.replicate (k + 1) 0 ++ padDec w n := by
              simp [List.replicate_succ]

/-- Zero-filling the decimal string of `n` to any width `w` that can hold
it yields exactly the `w`-digit padded representation of `n`. -/
theorem zfill_natStr {n w : ℕ} (h : (natStr n).length ≤ w) :
    zfill w (natStr n) = (padDec w n).map Nat.digitChar := by
  have hzero : Nat.digitChar 0 = '0' := rfl
  have hlen : (natStr n).length = Nat.log 10 n + 1 := natStr_length n
  have hlt : n < 10 ^ (Nat.log 10 n + 1) := by
    have := lt_pow_natStr_length n
    rwa [hlen] at this
  have hw : (Nat.log 10 n + 1) + (w - (Nat.log 10 n + 1)) = w := by omega
  calc zfill w (natStr n)
      = List.replicate (w - (Nat.log 10 n + 1)) '0' ++
          (padDec (Nat.log 10 n + 1) n).map Nat.digitChar := by
        simp [zfill, natStr, hlen, padDec_length]
    _ = ((List.replicate (w - (Nat.log 10 n + 1)) (0 : ℕ)).map Nat.digitChar) ++
          (padDec (Nat.log 10 n + 1) n).map Nat.digitChar := by
        rw [List.map_replicate, hzero]
    _ = ((List.replicate (w - (Nat.log 10 n + 1)) 0 ++
          padDec (Nat.log 10 n + 1) n).map Nat.digitChar) := by
        rw [List.map_append]
    _ = (padDec w n).map Nat.digitChar := by
        rw [← padDec_add_of_lt (w - (Nat.log 10 n + 1)) hlt, hw]

theorem digitChar_lt_digitChar {a b : ℕ} (ha : a < 10) (hb : b < 10)
    (hab : a < b) : Nat.digitChar a < Nat.digitChar b := by
  interval_cases a <;> interval_cases b <;> simp_all <;> decide

/-- Equal-width zero-padded decimal strings compare lexicographically the
same way the underlying numbers compare. -/
theorem padDec_lt {w a b : ℕ} (hab : a < b) (hb : b < 10 ^ w) :
    List.Lex (· < ·) ((padDec w a).map Nat.digitChar)
      ((padDec w b).map Nat.digitChar) := by
  induction w generalizing a b with
  | zero =>
      have h0 : (10 : ℕ) ^ 0 = 1 := pow_zero 10
      exact absurd hab (by omega)
  | succ w ih =>
      have ha : a < 10 ^ (w + 1) := lt_trans hab hb
      have hpow : (10 : ℕ) ^ (w + 1) = 10 ^ w * 10 := pow_succ 10 w
      have hda : a / 10 ^ w < 10 := Nat.div_lt_of_lt_mul (by omega)
      have hdb : b / 10 ^ w < 10 := Nat.div_lt_of_lt_mul (by omega)
      have hdiv : a / 10 ^ w ≤ b / 10 ^ w := Nat.div_le_div_right (le_of_lt hab)
      simp only [padDec, List.map_cons]
      rcases lt_or_eq_of_le hdiv with hlt | heq
      · exact List.Lex.rel (digitChar_lt_digitChar hda hdb hlt)
      · have h1 := Nat.div_add_mod a (10 ^ w)
        have h2 := Nat.div_add_mod b (10 ^ w)
        rw [← heq] at h2
        have hmod : a % 10 ^ w < b % 10 ^ w := by omega
        have hbm : b % 10 ^ w < 10 ^ w :=
          Nat.mod_lt b (Nat.pos_pow_of_pos w (by norm_num))
        rw [heq]
        exact List.Lex.cons (ih hmod hbm)

theorem coeffName_lt {order a b : ℕ} (ha : a ≤ order) (hb : b ≤ order)
    (hab : a < b) : coeffName order a < coeffName order b := by
  rw [String.lt_iff_toList_lt]
  show ('a' :: zfill (natStr order).length (natStr a)) <
    ('a' :: zfill (natStr order).length (natStr b))
  have hlex : List.Lex (· < ·) (zfill (natStr order).length (natStr a))
      (zfill (natStr order).length (natStr b)) := by
    rw [zfill_natStr (natStr_length_mono ha), zfill_natStr (natStr_length_mono hb)]
    exact padDec_lt hab (lt_of_le_of_lt hb (lt_pow_natStr_length order))
  exact List.Lex.cons hlex

/-- C6: for every valid `order ≥ 1`, `Polynomial(order)` has exactly
`order + 1` parameters, named `"a"` followed by the fixed-width
zero-padded degree suffix (width = number of decimal digits of `order`,
degrees `order` down to `0` in `coeff_list`), and the lexical ordering of
the parameter names matches degree order for any order, up to and beyond
10. -/
theorem polynomial_parameter_names (order : ℕ) (h : 1 ≤ order) :
    mkPolynomial order = .ok (polyParameters order) ∧
    (polyParameters order).length = order + 1 ∧
    (polyParameters order).map Param.name =
      ((coeffList order).map (fun c => String.mk ('a' :: c))).reverse ∧
    (∀ o, o ≤ order → (coeffName order o).length = (natStr order).length + 1) ∧
    (∀ d1 d2, d1 ≤ order → d2 ≤ order → d1 < d2 →
      coeffName order d1 < coeffName order d2) := by
  refine ⟨?_, ?_, ?_, ?_, ?_⟩
  · simp [mkPolynomial, Nat.one_le_iff_ne_zero.mp h]
  · simp [polyParameters]
  · simp [polyParameters, coeffList, coeffName, Param.fresh, List.map_map,
      List.map_reverse, List.reverse_reverse]
  · intro o ho
    have hm := natStr_length_mono ho
    simp [coeffName, zfill, String.length, List.length_append,
      List.length_replicate]
    omega
  · intro d1 d2 h1 h2 h12
    exact coeffName_lt h1 h2 h12

/-- Witness for C6 at the concrete order 11 (an order beyond 10, where the
suffixes are two digits wide). -/
theorem polynomial_parameter_names_witness :
    1 ≤ 11 ∧
    (mkPolynomial 11 = .ok (polyParameters 11) ∧
    (polyParameters 11).length = 11 + 1 ∧
    (polyParameters 11).map Param.name =
      ((coeffList 11).map (fun c => String.mk ('a' :: c))).reverse ∧
    (∀ o, o ≤ 11 → (coeffName 11 o).length = (natStr 11).length + 1) ∧
    (∀ d1 d2, d1 ≤ 11 → d2 ≤ 11 → d1 < d2 →
      coeffName 11 d1 < coeffName 11 d2)) :=
  ⟨by norm_num, polynomial_parameter_names 11 (by norm_num)⟩

theorem convertParamsFrom_spec (cd : LegacyParamDict) :
    ∀ (cs : List (List Char)) (i : ℕ),
      i + cs.length ≤ cd.value.length → i + cs.length ≤ cd.bounds.length →
      ∃ out, convertParamsFrom cd i cs = some out ∧
        out.length = cs.length ∧
        (∀ j c v b, cs.get? j = some c →
          cd.value.get? (i + j) = some v → cd.bounds.get? (i + j) = some b →
          out.get? j = some { idName := String.mk ('a' :: c), value := v,
                              bounds := b, rest := cd.rest }) := by
  intro cs
  induction cs with
  | nil =>
      intro i _ _
      exact ⟨[], rfl, rfl, fun j c v b hc _ _ => by simp at hc⟩
  | cons c cs ih =>
      intro i hv hb
      simp only [List.length_cons] at hv hb
      have hvi : i < cd.value.length := by omega
      have hbi : i < cd.bounds.length := by omega
      obtain ⟨out, hout, hlen, hget⟩ := ih (i + 1) (by omega) (by omega)
      refine ⟨{ idName := String.mk ('a' :: c), value := cd.value.get ⟨i, hvi⟩,
                bounds := cd.bounds.get ⟨i, hbi⟩, rest := cd.rest } :: out, ?_, ?_, ?_⟩
      · simp [convertParamsFrom, List.getElem?_eq_getElem, hvi, hbi, hout,
          List.get_eq_getElem]
      · simp [hlen]
      · intro j c' v b hc hvj hbj
        cases j with
        | zero =>
            simp only [List.get?] at hc
            simp only [Nat.add_zero] at hvj hbj
            rw [List.get?_eq_getElem?, List.getElem?_eq_getElem hvi] at hvj
            rw [List.get?_eq_getElem?, List.getElem?_eq_getElem hbi] at hbj
            simp only [Option.some.injEq] at hc hvj hbj
            subst hc hvj hbj
            simp [List.get_eq_getElem]
        | succ j =>
            have hvj' : cd.value.get? ((i + 1) + j) = some v := by
              rw [show (i + 1) + j = i + (j + 1) by omega]; exact hvj
            have hbj' : cd.bounds.get? ((i + 1) + j) = some b := by
              rw [show (i + 1) + j = i + (j + 1) by omega]; exact hbj
            have := hget j c' v b (by simpa using hc) hvj' hbj'
            simpa using this

theorem coeffList_length (order : ℕ) : (coeffList order).length = order + 1 := by
  simp [coeffList]

theorem coeffList_get? {order j : ℕ} (hj : j ≤ order) :
    (coeffList order).get? j =
      some (zfill (natStr order).length (natStr (order - j))) := by
  have h1 : j < (List.range (order + 1)).length := by
    simp only [List.length_range]; omega
  rw [List.get?_eq_getElem?]
  simp only [coeffList, List.getElem?_map]
  rw [List.getElem?_reverse (by simpa using h1)]
  simp only [List.length_range]
  rw [show order + 1 - 1 - j = order - j from by omega]
  rw [List.getElem?_range (show order - j < order + 1 by omega)]
  rfl

/-- C8: `convert_to_polynomial` on a legacy Polynomial dictionary of order
`n` holding a single coefficient-list parameter produces `n + 1` parameter
dictionaries; the `i`-th one (degree `n - i`) is named with the same
fixed-width zero-padded suffix the `Polynomial` constructor generates for
order `n`, its `value` and `_bounds` are element `i` of the legacy lists,
and every other key of the legacy parameter dictionary is copied
unchanged. -/
theorem convert_to_polynomial_spec (n : ℕ) (cd : LegacyParamDict)
    (rs : List (String × String))
    (hv : cd.value.length = n + 1) (hb : cd.bounds.length = n + 1) :
    ∃ out, convertToPolynomial ⟨n, [cd], rs⟩ = some out ∧
      out.order = n ∧ out.rest = rs ∧
      out.parameters.length = n + 1 ∧
      (∀ i v b, i ≤ n →
        cd.value.get? i = some v → cd.bounds.get? i = some b →
        out.parameters.get? i =
          some { idName := coeffName n (n - i), value := v, bounds := b,
                 rest := cd.rest }) := by
  obtain ⟨params, hparams, hlen, hget⟩ :=
    convertParamsFrom_spec cd (coeffList n) 0
      (by simp [coeffList_length, hv]) (by simp [coeffList_length, hb])
  refine ⟨{ order := n, parameters := params, rest := rs }, ?_, rfl, rfl, ?_, ?_⟩
  · simp [convertToPolynomial, hparams]
  · simp [hlen, coeffList_length]
  · intro i v b hi hvi hbi
    have hc := coeffList_get? hi
    have := hget i _ v b hc (by simpa using hvi) (by simpa using hbi)
    simpa [coeffName] using this

/-- Witness for C8: a concrete order-2 legacy dictionary with three
coefficients and bounds. -/
theorem convert_to_polynomial_spec_witness :
    (([5, 6, 7] : List ℚ).length = 2 + 1) ∧
    (([(none, none), (some 1, some 2), (none, some 3)] :
        List (Option ℚ × Option ℚ)).length = 2 + 1) ∧
    (∃ out, convertToPolynomial
        ⟨2, [⟨"coefficients", [5, 6, 7],
             [(none, none), (some 1, some 2), (none, some 3)],
             [("free", "true")]⟩], [("flip", "no")]⟩ = some out ∧
      out.order = 2 ∧ out.rest = [("flip", "no")] ∧
      out.parameters.length = 2 + 1 ∧
      (∀ i v b, i ≤ 2 →
        ([5, 6, 7] : List ℚ).get? i = some v →
        ([(none, none), (some 1, some 2), (none, some 3)] :
          List (Option ℚ × Option ℚ)).get? i = some b →
        out.parameters.get? i =
          some { idName := coeffName 2 (2 - i), value := v, bounds := b,
                 rest := [("free", "true")] })) :=
  ⟨rfl, rfl,
    convert_to_polynomial_spec 2
      ⟨"coefficients", [5, 6, 7],
       [(none, none), (some 1, some 2), (none, some 3)],
       [("free", "true")]⟩ [("flip", "no")] rfl rfl⟩

theorem foldl_filter_append (act : Bool) :
    ∀ (ps : List Param) (acc : List ℚ),
      ps.foldl (fun a p => if eligible act p then a ++ p.value else a) acc
        = acc ++ ps.bind (fun p => if eligible act p then p.value else []) := by
  intro ps
  induction ps with
  | nil => intro acc; simp
  | cons p ps ih =>
      intro acc
      by_cases h : eligible act p <;> simp [h, ih]

theorem setP0_eq_bind (m : Model) :
    m.setP0 = m.components.bind (fun c => c.parameters.bind (fun p =>
      if eligible c.active p then p.value else [])) := by
  have houter : ∀ (cs : List Component) (acc : List ℚ),
      cs.foldl (fun acc c => c.parameters.foldl
          (fun a p => if eligible c.active p then a ++ p.value else a) acc) acc
        = acc ++ cs.bind (fun c => c.parameters.bind (fun p =>
            if eligible c.active p then p.value else [])) := by
    intro cs
    induction cs with
    | nil => intro acc; simp
    | cons c cs ih =>
        intro acc
        rw [List.foldl_cons, foldl_filter_append, ih]
        simp [List.cons_bind, List.append_assoc]
  simpa [Model.setP0] using houter m.components []

theorem fetchParams_cons_pos (act : Bool) (p : Param) (ps : List Param)
    (v : List ℚ) (h : eligible act p = true) :
    fetchParams act (p :: ps) v =
      ({ p with value := v.take p.value.length } ::
          (fetchParams act ps (v.drop p.value.length)).1,
        (fetchParams act ps (v.drop p.value.length)).2) := by
  simp [fetchParams, h]

theorem fetchParams_cons_neg (act : Bool) (p : Param) (ps : List Param)
    (v : List ℚ) (h : eligible act p = false) :
    fetchParams act (p :: ps) v =
      (p :: (fetchParams act ps v).1, (fetchParams act ps v).2) := by
  simp [fetchParams, h]

theorem fetchComponents_cons (c : Component) (cs : List Component)
    (v : List ℚ) :
    fetchComponents (c :: cs) v =
      ({ c with parameters := (fetchParams c.active c.parameters v).1 } ::
          (fetchComponents cs (fetchParams c.active c.parameters v).2).1,
        (fetchComponents cs (fetchParams c.active c.parameters v).2).2) := by
  simp [fetchComponents]

theorem fetchParams_roundtrip (act : Bool) :
    ∀ (ps : List Param) (rest : List ℚ),
      fetchParams act ps
        ((ps.bind (fun p => if eligible act p then p.value else [])) ++ rest)
        = (ps, rest) := by
  intro ps
  induction ps with
  | nil => intro rest; simp [fetchParams]
  | cons p ps ih =>
      intro rest
      by_cases h : eligible act p
      · simp only [fetchParams, h, if_true, List.cons_bind, List.append_assoc,
          List.take_left, List.drop_left]
        rw [ih]
      · have hf : eligible act p = false := by simpa using h
        rw [fetchParams_cons_neg act p ps _ hf]
        simp only [List.cons_bind, hf, Bool.false_eq_true, if_false,
          List.nil_append]
        rw [ih]

theorem fetchComponents_roundtrip :
    ∀ (cs : List Component) (rest : List ℚ),
      fetchComponents cs
        ((cs.bind (fun c => c.parameters.bind (fun p =>
            if eligible c.active p then p.value else []))) ++ rest)
        = (cs, rest) := by
  intro cs
  induction cs with
  | nil => intro rest; simp [fetchComponents]
  | cons c cs ih =>
      intro rest
      simp only [fetchComponents, List.cons_bind, List.append_assoc,
        fetchParams_roundtrip, ih]

theorem fetchParams_frame (act : Bool) :
    ∀ (ps : List Param) (v : List ℚ) (i : ℕ) (p : Param),
      ps.get? i = some p → eligible act p = false →
      (fetchParams act ps v).1.get? i = some p := by
  intro ps
  induction ps with
  | nil => intro v i p h _; simp at h
  | cons q ps ih =>
      intro v i p hp hne
      cases i with
      | zero =>
          simp only [List.get?] at hp
          injection hp with hp
          subst hp
          rw [fetchParams_cons_neg _ _ _ _ hne]
          rfl
      | succ i =>
          simp only [List.get?] at hp
          by_cases hq : eligible act q
          · rw [fetchParams_cons_pos act q ps v hq]
            exact ih _ _ _ hp hne
          · have hf : eligible act q = false := by simpa using hq
            rw [fetchParams_cons_neg act q ps v hf]
            exact ih _ _ _ hp hne

theorem fetchComponents_frame :
    ∀ (cs : List Component) (v : List ℚ) (ci pi : ℕ) (c : Component) (p : Param),
      cs.get? ci = some c → c.parameters.get? pi = some p →
      eligible c.active p = false →
      ∃ c2, (fetchComponents cs v).1.get? ci = some c2 ∧
        c2.parameters.get? pi = some p := by
  intro cs
  induction cs with
  | nil => intro v ci pi c p h _ _; simp at h
  | cons c0 cs ih =>
      intro v ci pi c p hc hp hne
      cases ci with
      | zero =>
          simp only [List.get?] at hc
          injection hc with hc
          subst hc
          rw [fetchComponents_cons]
          exact ⟨_, rfl, fetchParams_frame _ _ v pi p hp hne⟩
      | succ ci =>
          simp only [List.get?] at hc
          rw [fetchComponents_cons]
          exact ih _ ci pi c p hc hp hne

/-- C2: `_set_p0` builds the free vector by iterating components in model
order and parameters in component order, including a parameter's value(s)
exactly when the parameter is free, not twinned and its component active,
with multi-element values expanded in place (the `bind` form); its length
is the free-parameter element count; `_fetch_values_from_p0` scatters a
vector back in the same deterministic order (round trip), and leaves
fixed, twinned and inactive-component parameters unchanged for every
vector. -/
theorem setP0_fetch_deterministic (m : Model) :
    m.setP0 = m.components.bind (fun c => c.parameters.bind (fun p =>
        if eligible c.active p then p.value else [])) ∧
    m.setP0.length = (m.components.map (fun c =>
        (c.parameters.map (fun p =>
          if eligible c.active p then p.value.length else 0)).sum)).sum ∧
    m.fetchValuesFromP0 m.setP0 = m ∧
    (∀ (p0 : List ℚ) (ci pi : ℕ) (c : Component) (p : Param),
      m.components.get? ci = some c → c.parameters.get? pi = some p →
      eligible c.active p = false →
      ∃ c2, (m.fetchValuesFromP0 p0).components.get? ci = some c2 ∧
        c2.parameters.get? pi = some p) := by
  refine ⟨setP0_eq_bind m, ?_, ?_, ?_⟩
  · rw [setP0_eq_bind m, List.length_bind]
    congr 1
    apply List.map_congr_left
    intro c _
    rw [Function.comp_apply, List.length_bind]
    congr 1
    apply List.map_congr_left
    intro p _
    simp [apply_ite List.length]
  · have h := fetchComponents_roundtrip m.components []
    rw [List.append_nil] at h
    rw [Model.fetchValuesFromP0, setP0_eq_bind, h]
  · intro p0 ci pi c p hc hp hne
    exact fetchComponents_frame m.components p0 ci pi c p hc hp hne

/-- Witness for C2 on the two-component scenario: the built vector, the
round trip, and the frame property at the fixed `sigma` parameter under an
unrelated vector. -/
theorem setP0_fetch_deterministic_witness :
    p0Scenario.setP0 = [1, 2, 3] ∧
    p0Scenario.fetchValuesFromP0 p0Scenario.setP0 = p0Scenario ∧
    (∃ c2, (p0Scenario.fetchValuesFromP0 [9, 9, 9]).components.get? 0 = some c2 ∧
      c2.parameters.get? 2 =
        some { Param.fresh "sigma" with value := [4], free := false }) := by
  refine ⟨?_, (setP0_fetch_deterministic p0Scenario).2.2.1, ?_⟩
  · rw [(setP0_fetch_deterministic p0Scenario).1]
    rfl
  · exact (setP0_fetch_deterministic p0Scenario).2.2.2 [9, 9, 9] 0 2 _ _
      rfl rfl rfl

theorem ensure_components_get (m : Model) (ci : ℕ) (c : Component)
    (hc : m.components.get? ci = some c) :
    m.ensureParametersInBounds.components.get? ci = some (
      if c.active then
        { c with parameters := c.parameters.map (fun p =>
            if p.free then p.snapToBounds else p) }
      else c) := by
  show (m.components.map _).get? ci = _
  rw [List.get?_map, hc]
  rfl

/-- C3 counterexample: `ensure_parameters_in_bounds` does not clamp every
parameter.  On the scenario of `test_snap_parameter_bounds`, the active
component's fixed parameter (value −3, `bmin = 0`, `free = False`) stays
at −3, below its lower bound, and the inactive component's free parameter
(value 300, `bmin = 500`) stays at 300, below its lower bound — so bounds
are not applied regardless of free/active state, refuting the claim. -/
theorem ensure_parameters_in_bounds_cex :
    (boundsScenario.ensureParametersInBounds.components.head?.bind
        (fun c => c.parameters.head?)).map Param.value = some [(-3 : ℚ)] ∧
    ((boundsScenario.ensureParametersInBounds.components.get? 1).bind
        (fun c => c.parameters.head?)).map Param.value = some [(300 : ℚ)] ∧
    ((boundsScenario.components.head?.bind
        (fun c => c.parameters.head?)).bind Param.bmin = some 0) ∧
    ((boundsScenario.components.get? 1).bind
        (fun c => c.parameters.head?)).bind Param.bmin = some 500 ∧
    ¬ ((0 : ℚ) ≤ -3) ∧ ¬ ((500 : ℚ) ≤ 300) := by
  refine ⟨rfl, rfl, rfl, rfl, by norm_num, by norm_num⟩

/-- C3 (amended): `ensure_parameters_in_bounds` clamps the value of every
free parameter of every active component into `[bmin, bmax]` wherever
those bounds are set; parameters with `free == False` and parameters of
components with `active == False` are left unchanged.  The last conjunct
states the clamp really lands inside the bounds (for a set lower bound
unconditionally; for a set upper bound when the lower bound is unset or
consistent). -/
theorem ensure_parameters_in_bounds_amended (m : Model) :
    (∀ ci c, m.components.get? ci = some c → c.active = false →
      m.ensureParametersInBounds.components.get? ci = some c) ∧
    (∀ ci c pi p, m.components.get? ci = some c → c.active = true →
      c.parameters.get? pi = some p →
      ∃ c2, m.ensureParametersInBounds.components.get? ci = some c2 ∧
        (p.free = false → c2.parameters.get? pi = some p) ∧
        (p.free = true → c2.parameters.get? pi = some p.snapToBounds)) ∧
    (∀ (lo hi : Option ℚ) (x b : ℚ),
      (lo = some b → b ≤ clampValue lo hi x) ∧
      (hi = some b → lo = none → clampValue lo hi x ≤ b) ∧
      (∀ b2, hi = some b → lo = some b2 → b2 ≤ b → clampValue lo hi x ≤ b)) := by
  refine ⟨?_, ?_, ?_⟩
  · intro ci c hc hca
    rw [ensure_components_get m ci c hc, hca]
    simp
  · intro ci c pi p hc hca hp
    refine ⟨{ c with parameters := c.parameters.map (fun p =>
        if p.free then p.snapToBounds else p) }, ?_, ?_, ?_⟩
    · rw [ensure_components_get m ci c hc, hca]
      try simp
    · intro hf
      show (c.parameters.map _).get? pi = _
      rw [List.get?_map, hp]
      simp [hf]
    · intro hf
      show (c.parameters.map _).get? pi = _
      rw [List.get?_map, hp]
      simp [hf]
  · intro lo hi x b
    refine ⟨?_, ?_, ?_⟩
    · intro h
      subst h
      simp only [clampValue]
      cases hi <;> dsimp only <;> split_ifs <;> linarith
    · intro h h2
      subst h h2
      simp only [clampValue]
      split_ifs <;> linarith
    · intro b2 h h2 hb
      subst h h2
      simp only [clampValue]
      split_ifs <;> linarith

/-- Witness for C3's amended claim on the bounds scenario: the inactive
component survives untouched, and the active component's free `sigma`
(value 30, `bmax = 15`) is snapped. -/
theorem ensure_parameters_in_bounds_amended_witness :
    boundsScenario.ensureParametersInBounds.components.get? 1 =
      some { id := 1, name := "g4", active := false,
             parameters :=
               [{ Param.fresh "A" with value := [300], bmin := some 500 }] } ∧
    (∃ c2, boundsScenario.ensureParametersInBounds.components.get? 0 = some c2 ∧
      c2.parameters.get? 1 =
        some ({ Param.fresh "sigma" with
                value := [30], bmax := some 15 }).snapToBounds) := by
  constructor
  · exact (ensure_parameters_in_bounds_amended boundsScenario).1 1 _ rfl rfl
  · obtain ⟨c2, h1, _, h3⟩ :=
      (ensure_parameters_in_bounds_amended boundsScenario).2.1 0 _ 1 _ rfl rfl rfl
    exact ⟨c2, h1, h3 rfl⟩

theorem store_components_get (m : Model) (ci : ℕ) (c : Component)
    (hc : m.components.get? ci = some c) :
    m.storeCurrentValues.components.get? ci = some (
      if c.active then
        { c with parameters :=
            c.parameters.map (fun p => p.storeCurrentValue m.currentIndex) }
      else c) := by
  show (m.components.map _).get? ci = _
  rw [List.get?_map, hc]
  rfl

/-- C9: `store_current_values` writes, at the current navigation pixel,
every active component's current parameter values and stds into each
parameter's map and marks that pixel's `is_set` flag (the `List.set` form:
every other pixel of the map is untouched); every parameter of an
inactive component is skipped entirely, its map left untouched rather
than zeroed. -/
theorem store_current_values_spec (m : Model) :
    (∀ ci c, m.components.get? ci = some c → c.active = false →
      m.storeCurrentValues.components.get? ci = some c) ∧
    (∀ ci c pi p, m.components.get? ci = some c → c.active = true →
      c.parameters.get? pi = some p →
      ∃ c2, m.storeCurrentValues.components.get? ci = some c2 ∧
        c2.parameters.get? pi = some
          { p with
            mapValues := p.mapValues.set m.currentIndex p.value,
            mapStd := p.mapStd.set m.currentIndex p.std,
            mapIsSet := p.mapIsSet.set m.currentIndex true }) := by
  refine ⟨?_, ?_⟩
  · intro ci c hc hca
    rw [store_components_get m ci c hc, hca]
    simp
  · intro ci c pi p hc hca hp
    refine ⟨{ c with parameters :=
        c.parameters.map (fun p => p.storeCurrentValue m.currentIndex) },
      ?_, ?_⟩
    · rw [store_components_get m ci c hc, hca]
      try simp
    · show (c.parameters.map _).get? pi = _
      rw [List.get?_map, hp]
      rfl

/-- Witness for C9 on the store scenario: the active component's map at
pixel 0 receives value 2, std 3 and `is_set`, while the inactive
component keeps its stored entry 5, different from its current value 2. -/
theorem store_current_values_spec_witness :
    storeScenario.storeCurrentValues.components.get? 1 =
      some { id := 1, name := "Offset_0", active := false,
             parameters := [{ Param.fresh "offset" with
               value := [2], std := some 3,
               mapValues := [[5]], mapStd := [none], mapIsSet := [true] }] } ∧
    (∃ c2, storeScenario.storeCurrentValues.components.get? 0 = some c2 ∧
      c2.parameters.get? 0 =
        some { Param.fresh "offset" with
               value := [2], std := some 3,
               mapValues := [[2]], mapStd := [some 3], mapIsSet := [true] }) := by
  constructor
  · exact (store_current_values_spec storeScenario).1 1 _ rfl rfl
  · exact (store_current_values_spec storeScenario).2 0 _ 0 _ rfl rfl rfl

theorem mem_id_iff_any (m : Model) (c : Component) :
    (m.components.any (fun c0 => c0.id == c.id)) = true ↔
      c.id ∈ m.components.map Component.id := by
  simp [List.any_eq_true, List.mem_map, beq_iff_eq]

/-- C5: `append` fails with the duplicate-component error exactly when the
identical component instance (same object identity) is already present —
a field-for-field equal but distinct instance appends fine — the failure
is checked before any mutation (the error carries no model), and `extend`
over a sequence repeating one instance fails the same way. -/
theorem append_duplicate_identity :
    (∀ (m : Model) (c : Component), c.id ∈ m.components.map Component.id →
      m.append c = .error .duplicateComponent) ∧
    (∀ (m : Model) (c : Component), c.id ∉ m.components.map Component.id →
      m.extend [c, c] = .error .duplicateComponent) ∧
    (∀ (m : Model) (c : Component), c.id ∉ m.components.map Component.id →
      ∃ m2, m.append c = .ok m2 ∧
        m2.components.map Component.id =
          m.components.map Component.id ++ [c.id]) := by
  have hok : ∀ (m : Model) (c : Component),
      c.id ∉ m.components.map Component.id →
      m.append c = .ok { m with
        components := m.components ++
          [{ c.attach m.navSize with
             name := uniqueName (m.components.map Component.name) c.name }] } := by
    intro m c h
    rw [Model.append, if_neg]
    rw [mem_id_iff_any]
    exact h
  refine ⟨?_, ?_, ?_⟩
  · intro m c h
    rw [Model.append, if_pos ((mem_id_iff_any m c).mpr h)]
  · intro m c h
    show ([c, c].foldlM Model.append m) = _
    rw [List.foldlM_cons, hok m c h]
    show ([c].foldlM Model.append _) = _
    rw [List.foldlM_cons, Model.append, if_pos]
    · rfl
    · rw [mem_id_iff_any]
      simp [Component.attach, createArrays]
  · intro m c h
    refine ⟨_, hok m c h, ?_⟩
    simp [Component.attach, createArrays]

/-- Witness for C5: appending a second instance with the attached object
id 0 fails; extending with the same fresh instance twice fails; a
distinct instance equal in every other field appends, extending the id
list by its identity. -/
theorem append_duplicate_identity_witness :
    p0Scenario.append dupComponent = .error .duplicateComponent ∧
    p0Scenario.extend [freshComponent, freshComponent] =
      .error .duplicateComponent ∧
    (∃ m2, p0Scenario.append freshComponent = .ok m2 ∧
      m2.components.map Component.id = [0, 1, 7]) := by
  refine ⟨append_duplicate_identity.1 p0Scenario dupComponent (by decide),
    append_duplicate_identity.2.1 p0Scenario freshComponent (by decide), ?_⟩
  obtain ⟨m2, h1, h2⟩ :=
    append_duplicate_identity.2.2 p0Scenario freshComponent (by decide)
  exact ⟨m2, h1, by rw [h2]; rfl⟩

/-- C4: deleting the slice `[g1, g2]` of the model `[g1, g2, g3]` — with
`g3.A` twinned to `g1.A` and `g1.sigma` twinned to `g2.sigma` — leaves
`g3` in the model, clears `g3.A.twin`, clears `g1.sigma.twin`, empties
`g1.A`'s `_twins` back-reference set (and `g2.sigma`'s), and leaves no
twin link of any live parameter pointing into the removed components:
twin links are broken in both directions on removal. -/
theorem delete_slice_breaks_twins :
    (removeComponents deleteSliceArena [1, 2, 3] [1, 2]).2 = [3] ∧
    ((removeComponents deleteSliceArena [1, 2, 3] [1, 2]).1.get? 2).map
        (fun c => c.params.map TwinParam.twin) =
      some [none, none, none] ∧
    ((removeComponents deleteSliceArena [1, 2, 3] [1, 2]).1.get? 0).map
        (fun c => c.params.map TwinParam.twin) =
      some [none, none, none] ∧
    ((removeComponents deleteSliceArena [1, 2, 3] [1, 2]).1.get? 0).map
        (fun c => c.params.map TwinParam.twins) =
      some [[], [], []] ∧
    ((removeComponents deleteSliceArena [1, 2, 3] [1, 2]).1.get? 1).map
        (fun c => c.params.map TwinParam.twins) =
      some [[], [], []] ∧
    (removeComponents deleteSliceArena [1, 2, 3] [1, 2]).1.map
        TwinComponent.id = [1, 2, 3] := by
  decide

/-- C1: on the one-Gaussian model with `A.value = 1`, `centre.value = 2`,
`sigma` twinned to `centre`, axis `[1, 0]` and channel mask
`[False, True]`, `_jacobian(pv, data, weights = 0.3)` — for every
parameter vector, data argument and every triple of analytic gradient
leaves — equals `0.3 * [A.grad(0), sigma.grad(0) + centre.grad(0)]`: the
twinned `sigma`'s gradient is summed into `centre`'s free slot and each
row is scaled by the weights.  Jacobian evaluation is pure, and the
model's values stay `A = 1`, `centre = 2` and `sigma = 2` (`sigma`'s
value is computed from its twin). -/
theorem jacobian_twin_chain_rule (gA gC gS : ℚ → ℚ) (pv : List ℚ)
    (data : Option (List ℚ)) :
    (gaussScenario gA gC gS).jacobian pv data (some (3 / 10)) =
      [[3 / 10 * gA 0], [3 / 10 * (gS 0 + gC 0)]] ∧
    (gaussScenario gA gC gS).paramValue (0, 0) = some [1] ∧
    (gaussScenario gA gC gS).paramValue (0, 1) = some [2] ∧
    (gaussScenario gA gC gS).paramValue (0, 2) = some [2] := by
  refine ⟨?_, rfl, rfl, rfl⟩
  simp [gaussScenario, gaussComponent, Model.jacobian, Model.maskedAxis,
    Model.slotGrad, Model.paramAt, Param.fresh, eligible,
    List.filterMap_cons]
  ring

theorem round_mono_rat {x y : ℚ} (h : x ≤ y) : round x ≤ round y := by
  rw [round_eq, round_eq]
  exact Int.floor_mono (by linarith)

/-- An in-range physical value maps to an index not past the end of the
axis, whatever the axis direction. -/
theorem value2index_toNat_le (a : SignalAxis) (v : ℚ) (hlow : a.lowValue < v)
    (hhigh : v ≤ a.highValue) : (a.value2index v).toNat ≤ a.size - 1 := by
  rw [Int.toNat_le]
  unfold SignalAxis.lowValue SignalAxis.valueAt at hlow
  unfold SignalAxis.highValue SignalAxis.valueAt at hhigh
  simp only [Nat.cast_zero, mul_zero, add_zero] at hlow hhigh
  have hkey : (v - a.offset) / a.scale ≤ ((a.size - 1 : ℕ) : ℚ) := by
    rcases lt_trichotomy a.scale 0 with hneg | hzero | hpos
    · have hm : a.scale * ((a.size - 1 : ℕ) : ℚ) ≤ 0 :=
        mul_nonpos_of_nonpos_of_nonneg (le_of_lt hneg) (Nat.cast_nonneg _)
      have hvals : a.offset + a.scale * ((a.size - 1 : ℕ) : ℚ) ≤ a.offset := by
        linarith
      rw [min_eq_right hvals] at hlow
      rw [div_le_iff_of_neg hneg]
      have hcomm : ((a.size - 1 : ℕ) : ℚ) * a.scale =
          a.scale * ((a.size - 1 : ℕ) : ℚ) := mul_comm _ _
      linarith
    · rw [hzero] at hlow hhigh
      simp only [zero_mul, add_zero, min_self, max_self] at hlow hhigh
      exact absurd (hlow.trans_le hhigh) (lt_irrefl _)
    · have hm : 0 ≤ a.scale * ((a.size - 1 : ℕ) : ℚ) :=
        mul_nonneg (le_of_lt hpos) (Nat.cast_nonneg _)
      have hvals : a.offset ≤ a.offset + a.scale * ((a.size - 1 : ℕ) : ℚ) := by
        linarith
      rw [max_eq_right hvals] at hhigh
      rw [div_le_iff hpos]
      have hcomm : ((a.size - 1 : ℕ) : ℚ) * a.scale =
          a.scale * ((a.size - 1 : ℕ) : ℚ) := mul_comm _ _
      linarith
  have hr := round_mono_rat hkey
  rw [round_natCast] at hr
  exact hr

theorem value2index_mono_pos (a : SignalAxis) {v1 v2 : ℚ}
    (hpos : 0 < a.scale) (h : v1 ≤ v2) :
    a.value2index v1 ≤ a.value2index v2 :=
  round_mono_rat ((div_le_div_right hpos).mpr (by linarith))

theorem value2index_mono_nonpos (a : SignalAxis) {v1 v2 : ℚ}
    (hnp : ¬ 0 < a.scale) (h : v2 ≤ v1) :
    a.value2index v1 ≤ a.value2index v2 := by
  rcases eq_or_lt_of_le (le_of_not_lt hnp) with heq | hneg
  · unfold SignalAxis.value2index
    rw [heq, div_zero, div_zero]
  · exact round_mono_rat ((div_le_div_right_of_neg hneg).mpr (by linarith))

/-- A successfully converted range is never empty or inverted: the lower
index is at most the upper index, for every axis and pair of physical
bounds. -/
theorem valueRangeToIndices_ok_le (a : SignalAxis) (v1 v2 : ℚ) (i1 i2 : ℕ)
    (h : a.valueRangeToIndices v1 v2 = .ok (i1, i2)) : i1 ≤ i2 := by
  unfold SignalAxis.valueRangeToIndices at h
  by_cases hdir : (if 0 < a.scale then v2 < v1 else v1 < v2)
  · rw [if_pos hdir] at h
    cases h
  · rw [if_neg hdir] at h
    simp only [Except.ok.injEq, Prod.mk.injEq] at h
    obtain ⟨h1, h2⟩ := h
    subst h1
    subst h2
    by_cases hp1 : a.lowValue < v1 ∧ v1 ≤ a.highValue
    · rw [if_pos hp1]
      by_cases hp2 : a.lowValue ≤ v2 ∧ v2 < a.highValue
      · rw [if_pos hp2]
        by_cases hsc : 0 < a.scale
        · rw [if_pos hsc] at hdir
          exact Int.toNat_le_toNat
            (value2index_mono_pos a hsc (le_of_not_lt hdir))
        · rw [if_neg hsc] at hdir
          exact Int.toNat_le_toNat
            (value2index_mono_nonpos a hsc (le_of_not_lt hdir))
      · rw [if_neg hp2]
        exact value2index_toNat_le a v1 hp1.1 hp1.2
    · rw [if_neg hp1]
      exact Nat.zero_le _

/-- C7: `_parse_signal_range_values` converts a physical range — or an
ROI exposing `left`/`right` — to index bounds honouring axis direction:
on the 20-channel axis with offset 100 and scale −1 the bounds `(89, 85)`
give indices `(11, 15)` while `(85, 89)` is a `ValueError` (direction
mismatch); on the increasing axis both value and ROI forms of
`(105, 110)` give `(5, 10)`; and in general a returned index range is
never empty or inverted — whenever it would be, the conversion fails with
`ValueError` instead (the conversion is pure, leaving the signal range
untouched on failure). -/
theorem parse_signal_range_direction :
    parseSignalRangeValues negScaleAxis (.values 89 85) = .ok (11, 15) ∧
    parseSignalRangeValues negScaleAxis (.values 85 89) =
      .error "Wrong order of the coordinate values." ∧
    parseSignalRangeValues posScaleAxis (.values 105 110) = .ok (5, 10) ∧
    parseSignalRangeValues posScaleAxis (.roi ⟨105, 110⟩) = .ok (5, 10) ∧
    (∀ (a : SignalAxis) (v1 v2 : ℚ) (i1 i2 : ℕ),
      a.valueRangeToIndices v1 v2 = .ok (i1, i2) → i1 ≤ i2) := by
  refine ⟨?_, ?_, ?_, ?_, valueRangeToIndices_ok_le⟩
  · show negScaleAxis.valueRangeToIndices 89 85 = .ok (11, 15)
    norm_num [SignalAxis.valueRangeToIndices, SignalAxis.lowValue,
      SignalAxis.highValue, SignalAxis.valueAt, SignalAxis.value2index,
      negScaleAxis, round_eq, Int.toNat_ofNat]
    decide
  · show negScaleAxis.valueRangeToIndices 85 89 =
      .error "Wrong order of the coordinate values."
    norm_num [SignalAxis.valueRangeToIndices, negScaleAxis]
  · show posScaleAxis.valueRangeToIndices 105 110 = .ok (5, 10)
    norm_num [SignalAxis.valueRangeToIndices, SignalAxis.lowValue,
      SignalAxis.highValue, SignalAxis.valueAt, SignalAxis.value2index,
      posScaleAxis, round_eq, Int.toNat_ofNat]
    decide
  · show posScaleAxis.valueRangeToIndices 105 110 = .ok (5, 10)
    norm_num [SignalAxis.valueRangeToIndices, SignalAxis.lowValue,
      SignalAxis.highValue, SignalAxis.valueAt, SignalAxis.value2index,
      posScaleAxis, round_eq, Int.toNat_ofNat]
    decide

/-- Witness for C7's non-inversion conjunct at a bound falling off the
axis: on the decreasing axis, `(89, 20)` clamps the upper index to the
axis end, giving `(11, 19)`, a non-inverted range. -/
theorem parse_signal_range_direction_witness :
    negScaleAxis.valueRangeToIndices 89 20 = .ok (11, 19) ∧ (11 : ℕ) ≤ 19 := by
  have h : negScaleAxis.valueRangeToIndices 89 20 = .ok (11, 19) := by
    norm_num [SignalAxis.valueRangeToIndices, SignalAxis.lowValue,
      SignalAxis.highValue, SignalAxis.valueAt, SignalAxis.value2index,
      negScaleAxis, round_eq, Int.toNat_ofNat]
    decide
  exact ⟨h, parse_signal_range_direction.2.2.2.2 negScaleAxis 89 20 11 19 h⟩

/-- C10: `Polynomial.estimate_parameters` returns `True` on every
terminating execution: whenever the embedded computation returns at all
(the range conversion may instead fail), the returned boolean is `True`,
in both the `only_current` and the full-dataset branch, for every
signal, range, parameter list and least-squares leaf. -/
theorem estimate_parameters_returns_true
    (polyfit : List ℚ → List ℚ → ℕ → List ℚ) (params : List Param)
    (s : EstSignal) (x1 x2 : ℚ) (oc : Bool) :
    (estimateParameters polyfit params s x1 x2 oc).map Prod.fst =
      (estimateParameters polyfit params s x1 x2 oc).map (fun _ => true) := by
  unfold estimateParameters
  cases h : s.axis.valueRangeToIndices x1 x2 with
  | error e => rfl
  | ok idx => cases oc <;> rfl

end HSpec
